import Mathlib

/-!
Verification of the smart-text-search scorer (src/index.ts).

Strings are embedded as `List Char`.  Scores are embedded as `ℚ` (the
source computes with JS numbers; all constants appearing in the program
are small decimal fractions, which `ℚ` represents exactly).  JS regular
expression character classes are embedded as explicit character-code
predicates.  A JS expression `xs[i]` that can evaluate to `undefined` is
embedded as `xs.get? i : Option _`; a JS property access that throws a
TypeError on `undefined` is embedded by returning `none` from the
enclosing function, so fallible code paths return `Option` values.
-/

abbrev Str := List Char

def spaceChar : Char := Char.ofNat 32

/-- JS regex `\s` (whitespace) character class, by code point. -/
def isWS (c : Char) : Bool :=
  c.toNat = 9 || c.toNat = 10 || c.toNat = 11 || c.toNat = 12 || c.toNat = 13 ||
  c.toNat = 32 || c.toNat = 160 || c.toNat = 5760 ||
  (8192 ≤ c.toNat && c.toNat ≤ 8202) ||
  c.toNat = 8232 || c.toNat = 8233 || c.toNat = 8239 || c.toNat = 8287 ||
  c.toNat = 12288 || c.toNat = 65279

/-- JS regex `\w` character class: ASCII letters, digits and underscore. -/
def isWordChar (c : Char) : Bool :=
  (48 ≤ c.toNat && c.toNat ≤ 57) || (65 ≤ c.toNat && c.toNat ≤ 90) ||
  (97 ≤ c.toNat && c.toNat ≤ 122) || c.toNat = 95

/-- Code points of the character class used by `getCustomWordMultiplier`:
space, backtick, and the listed ASCII punctuation/symbol characters. -/
def multPunctCodes : List Nat :=
  [32, 96, 33, 64, 35, 36, 37, 94, 38, 42, 40, 41, 95, 43, 45, 61,
   91, 93, 123, 125, 59, 39, 58, 34, 92, 124, 44, 46, 60, 62, 47, 63, 126]

def isMultPunct (c : Char) : Bool := multPunctCodes.contains c.toNat

/-- Code points of the normalizer class replaced by a space:
slash, hash, percent, ampersand, equals, hyphen. -/
def spacedPunctCodes : List Nat := [47, 35, 37, 38, 61, 45]

def isSpacedPunct (c : Char) : Bool := spacedPunctCodes.contains c.toNat

/-- Code points of the normalizer class deleted outright:
period, comma, apostrophe, bang, dollar, caret, star, semicolon, colon,
braces, backtick, tilde, parentheses. -/
def removedPunctCodes : List Nat :=
  [46, 44, 39, 33, 36, 94, 42, 59, 58, 123, 125, 96, 126, 40, 41]

def isRemovedPunct (c : Char) : Bool := removedPunctCodes.contains c.toNat

/-- Embeds `text.replace(/[\/#%&=-]/g, " ")`. -/
def replaceSpacedPunct (text : Str) : Str :=
  text.map (fun c => if isSpacedPunct c then spaceChar else c)

/-- Embeds `text.replace(/[.,'!$^*;:{}~()]/g, "")` (with backtick in the class). -/
def removePunct (text : Str) : Str :=
  text.filter (fun c => !isRemovedPunct c)

/-- Embeds `text.replace(/\s\s+/g, " ")`: every maximal run of two or more
whitespace characters becomes a single space; a lone whitespace character
is left as it is.  A left-to-right scan; the state is `none` outside a
whitespace run and `some (w, sawMore)` inside one, where `w` is the run's
first character and `sawMore` records whether the run has length ≥ 2. -/
def collapseWSGo : Str → Option (Char × Bool) → Str
  | [], none => []
  | [], some (w, sawMore) => if sawMore then [spaceChar] else [w]
  | c :: rest, none =>
      if isWS c then collapseWSGo rest (some (c, false))
      else c :: collapseWSGo rest none
  | c :: rest, some (w, sawMore) =>
      if isWS c then collapseWSGo rest (some (w, true))
      else (if sawMore then spaceChar else w) :: c :: collapseWSGo rest none

def collapseWS (text : Str) : Str := collapseWSGo text none

/-- Embeds `getConfiguredText` from the source: optional locale lowercasing
(embedded on the ASCII range by `Char.toLower`), optional punctuation
stripping (first class replaced by spaces, second class deleted), optional
whitespace collapsing, applied in that order. -/
def getConfiguredText (text : Str) (isCaseSensitive shouldMatchPunctuation
    shouldCollapseWhitespace : Bool) : Str :=
  let t1 := if !isCaseSensitive then text.map Char.toLower else text
  let t2 := if !shouldMatchPunctuation then removePunct (replaceSpacedPunct t1) else t1
  if shouldCollapseWhitespace then collapseWS t2 else t2

/-- Embeds `word.trim()` (used only in the dead statement of `getWords`). -/
def trimJS (w : Str) : Str := ((w.dropWhile isWS).reverse.dropWhile isWS).reverse

/-- Embeds `text.match(/\S+/g) || []`: the maximal runs of non-whitespace
characters, collected by a left-to-right scan with an accumulator holding
the (reversed) current run. -/
def matchNonWSAcc : Str → Str → List Str
  | [], acc => if acc.isEmpty then [] else [acc.reverse]
  | c :: rest, acc =>
      if isWS c then
        if acc.isEmpty then matchNonWSAcc rest [] else acc.reverse :: matchNonWSAcc rest []
      else matchNonWSAcc rest (c :: acc)

def matchNonWS (text : Str) : List Str := matchNonWSAcc text []

/-- Embeds `text.split(/(\W+)/)`: alternating word chunks and delimiter
runs, with the delimiter runs kept, and empty word chunks at either end
when the text starts or ends with a delimiter.  The recursion is given
fuel `text.length + 1`, which always suffices (each step consumes the
nonempty delimiter run). -/
def splitKeepGo : Nat → Str → List Str
  | 0, _ => []
  | fuel + 1, l =>
      let w := l.takeWhile isWordChar
      match l.dropWhile isWordChar with
      | [] => [w]
      | d :: rest =>
          w :: ((d :: rest).takeWhile (fun c => !isWordChar c)) ::
            splitKeepGo fuel ((d :: rest).dropWhile (fun c => !isWordChar c))

def splitKeep (text : Str) : List Str := splitKeepGo (text.length + 1) text

/-- Embeds `getWords` from the source.  In the
`shouldMatchWhitespaceAndPunctuation` mode the delimiter-keeping split is
returned.  Otherwise the source's `shouldMatchPunctuation` branch computes
a filtered match whose value is discarded (an expression statement), and
control falls through to the final `return text.match(/\S+/g) || []`. -/
def getWords (text : Str) (shouldMatchWhitespaceAndPunctuation
    shouldMatchPunctuation : Bool) : List Str :=
  if shouldMatchWhitespaceAndPunctuation then
    splitKeep text
  else
    let _dead := if shouldMatchPunctuation then
      (matchNonWS text).filter (fun w => decide (0 < (trimJS w).length)) else []
    matchNonWS text

/-- A natural number as a rational, written so that it evaluates by kernel
reduction (`Nat.cast` into `ℚ` goes through instances that do not). -/
def natQ (n : Nat) : ℚ := mkRat (Int.ofNat n) 1

/-- Embeds `getExactMatchScore`. -/
def getExactMatchScore (query body : Str) : ℚ :=
  if query = body then 1 else 0

def startsWithList : Str → Str → Bool
  | [], _ => true
  | _ :: _, [] => false
  | p :: ps, b :: bs => p == b && startsWithList ps bs

/-- Count of non-overlapping, leftmost matches of a nonempty literal
pattern, scanning left to right with the scan position advancing past
each match (the behaviour of a global `RegExp` on a literal pattern).
Fuel is the length of the remaining text, which always suffices. -/
def countOccurGo (pattern : Str) : Nat → Str → Nat
  | _, [] => 0
  | 0, _ => 0
  | fuel + 1, c :: rest =>
      if startsWithList pattern (c :: rest) then
        1 + countOccurGo pattern fuel ((c :: rest).drop pattern.length)
      else countOccurGo pattern fuel rest

/-- Embeds `(body.match(new RegExp(query, "g")) || []).length` for a query
with no special pattern characters, i.e. interpreted as a literal pattern.
The empty pattern matches once at every position, giving
`body.length + 1`. -/
def countPatternMatches (pattern body : Str) : Nat :=
  match pattern with
  | [] => body.length + 1
  | _ :: _ => countOccurGo pattern body.length body

/-- Embeds `getExactContainingMatchScore` (literal-pattern queries). -/
def getExactContainingMatchScore (query body : Str) : ℚ :=
  natQ (countPatternMatches query body)

def theWord : Str := ['t', 'h', 'e']
def aWord : Str := ['a']
def ofWord : Str := ['o', 'f']
def capIWord : Str := ['I']
def andWord : Str := ['a', 'n', 'd']

/-- Embeds `getCustomWordMultiplier`: 0.1 for a one-character word whose
character is in the punctuation/symbol class, 0.5 for the five
case-sensitively matched stop-words, 1 otherwise. -/
def getCustomWordMultiplier (word : Str) : ℚ :=
  if word.length = 1 ∧ word.any isMultPunct then mkRat 1 10
  else if word = theWord ∨ word = aWord ∨ word = ofWord ∨ word = capIWord ∨
      word = andWord then mkRat 1 2
  else 1

/-- Embeds `getSingleWordMatchScore`: every shared query token contributes
once per equal body token, weighted by its length, the multiplier and the
dampening factor. -/
def getSingleWordMatchScore (queryWords bodyWords : List Str)
    (singleWordMatchLengthMultiplier : ℚ) : ℚ :=
  let sharedWords := queryWords.filter (fun queryWord => bodyWords.contains queryWord)
  sharedWords.foldl
    (fun score queryWord =>
      score +
        natQ (bodyWords.filter (fun bodyWord => bodyWord == queryWord)).length *
          natQ queryWord.length * singleWordMatchLengthMultiplier *
          getCustomWordMultiplier queryWord)
    0

/-- Embeds `getUniqueSingleWordMatchScore`: the query tokens shared with
the body each contribute their length times the multiplier times the
dampening factor (note: the source does not deduplicate the query
tokens). -/
def getUniqueSingleWordMatchScore (queryWords bodyWords : List Str)
    (uniqueSingleWordMatchLengthMultiplier : ℚ) : ℚ :=
  let sharedWords := queryWords.filter (fun element => bodyWords.contains element)
  sharedWords.foldl
    (fun score word =>
      score + natQ word.length * uniqueSingleWordMatchLengthMultiplier *
        getCustomWordMultiplier word)
    0

/-- Embeds the `matchIndexes` computation of the consecutive scorer:
`bodyWords.map((bodyWord, index) => bodyWord === queryWords[i] ? index : "").filter(String)`.
A matching position maps to its index and survives the truthiness filter
(`String(0)` is the nonempty string "0"); a non-matching position maps to
the empty string and is dropped. -/
def matchIndexes (bodyWords : List Str) (queryWord : Str) : List Nat :=
  bodyWords.enum.filterMap (fun p => if p.2 = queryWord then some p.1 else none)

/-- Embeds the inner `firstBodyWord` loop of
`getConsecutiveWordSequenceMatchScore`.  `remaining` counts the loop
iterations still allowed (initially `matchIndexes.length`), `k` is the
loop counter `firstBodyWord`, `ccw`/`seq` are `currentConsecutiveWords`
and `currentConsecutiveWordSequence`.  Out-of-range indexing yields
`Option` values, and JS `!==` on two `undefined` values is false, so when
both sides are `none` the code proceeds to read `.length` of `undefined`
and throws: that path returns `none`.  A break returns `some (some _)`
(the maxima candidates); loop exhaustion returns `some none` (the maxima
are not updated). -/
def consecInner (queryWords bodyWords : List Str) (firstQueryWord : Nat) :
    Nat → Nat → Nat → Nat → Option (Option (Nat × Nat))
  | 0, _, _, _ => some none
  | remaining + 1, k, ccw, seq =>
      if queryWords.get? (firstQueryWord + ccw) ≠ bodyWords.get? (k + ccw) then
        some (some (ccw, seq))
      else
        match bodyWords.get? (k + ccw) with
        | none => none
        | some w => consecInner queryWords bodyWords firstQueryWord
            remaining (k + 1) (ccw + 1) (seq + w.length)

/-- Embeds the outer `firstQueryWord` loop of
`getConsecutiveWordSequenceMatchScore`, walking the query tokens (the
list argument is the suffix of `queryWords` starting at index `i`) and
threading the two global maxima. -/
def consecOuter (queryWords bodyWords : List Str) :
    List Str → Nat → Nat → Nat → Option (Nat × Nat)
  | [], _, most, longest => some (most, longest)
  | queryWord :: restStarts, i, most, longest =>
      match consecInner queryWords bodyWords i
          (matchIndexes bodyWords queryWord).length 0 0 0 with
      | none => none
      | some none => consecOuter queryWords bodyWords restStarts (i + 1) most longest
      | some (some (w, s)) =>
          consecOuter queryWords bodyWords restStarts (i + 1)
            (Nat.max most w) (Nat.max longest s)

/-- Embeds `getConsecutiveWordSequenceMatchScore`.  `none` is the TypeError
path of the inner loop. -/
def getConsecutiveWordSequenceMatchScore (queryWords bodyWords : List Str)
    (consecutiveWordMatchLengthMultiplier consecutiveWordSequenceLengthMultiplier : ℚ) :
    Option (ℚ × ℚ) :=
  match consecOuter queryWords bodyWords queryWords 0 0 0 with
  | none => none
  | some (mostConsecutiveWords, longestConsecutiveWordSequence) =>
      some (natQ mostConsecutiveWords * consecutiveWordMatchLengthMultiplier,
        natQ longestConsecutiveWordSequence * consecutiveWordSequenceLengthMultiplier)

structure SearchOptions where
  exactMatchPoints : ℚ
  exactContainingMatchPoints : ℚ
  singleWordMatchPoints : ℚ
  singleWordMatchLengthMultiplier : ℚ
  uniqueSingleWordMatchPoints : ℚ
  uniqueSingleWordMatchLengthMultiplier : ℚ
  consecutiveWordMatchPoints : ℚ
  consecutiveWordMatchLengthMultiplier : ℚ
  consecutiveWordSequenceMatchPoints : ℚ
  consecutiveWordSequenceLengthMultiplier : ℚ
  isCaseSensitive : Bool
  shouldMatchPunctuation : Bool
  shouldMatchWhitespaceAndPunctuation : Bool
  shouldCollapseWhitespace : Bool

def defaultSearchOptions : SearchOptions where
  exactMatchPoints := 70
  exactContainingMatchPoints := 50
  singleWordMatchPoints := 1
  singleWordMatchLengthMultiplier := mkRat 3 2
  uniqueSingleWordMatchPoints := 2
  uniqueSingleWordMatchLengthMultiplier := mkRat 3 2
  consecutiveWordMatchPoints := 5
  consecutiveWordMatchLengthMultiplier := 2
  consecutiveWordSequenceMatchPoints := 1
  consecutiveWordSequenceLengthMultiplier := mkRat 3 2
  isCaseSensitive := false
  shouldMatchPunctuation := true
  shouldMatchWhitespaceAndPunctuation := true
  shouldCollapseWhitespace := true

/-- Embeds `search` on an already-merged options record, instrumented with
a trace of which scorer functions are invoked: 0 = exact match,
1 = exact containing match, 2 = single word, 3 = unique single word,
4 = consecutive word sequence.  The trace makes the source's
weight-guarded short-circuits observable.  `none` is the TypeError path
of the consecutive scorer. -/
def searchT (query body : Str) (o : SearchOptions) : Option (ℚ × List Nat) :=
  let formattedQuery := getConfiguredText query o.isCaseSensitive
    o.shouldMatchPunctuation o.shouldCollapseWhitespace
  let formattedBody := getConfiguredText body o.isCaseSensitive
    o.shouldMatchPunctuation o.shouldCollapseWhitespace
  let s1 : ℚ := if o.exactMatchPoints ≠ 0 then
    o.exactMatchPoints * getExactMatchScore formattedQuery formattedBody else 0
  let t1 : List Nat := if o.exactMatchPoints ≠ 0 then [0] else []
  let s2 : ℚ := if o.exactContainingMatchPoints ≠ 0 then
    s1 + o.exactContainingMatchPoints *
      getExactContainingMatchScore formattedQuery formattedBody else s1
  let t2 : List Nat := if o.exactContainingMatchPoints ≠ 0 then t1 ++ [1] else t1
  let queryWords := getWords formattedQuery o.shouldMatchWhitespaceAndPunctuation
    o.shouldMatchPunctuation
  let bodyWords := getWords formattedBody o.shouldMatchWhitespaceAndPunctuation
    o.shouldMatchPunctuation
  let s3 : ℚ := if o.singleWordMatchPoints ≠ 0 ∧ o.singleWordMatchLengthMultiplier ≠ 0 then
    s2 + o.singleWordMatchPoints *
      getSingleWordMatchScore queryWords bodyWords o.singleWordMatchLengthMultiplier else s2
  let t3 : List Nat := if o.singleWordMatchPoints ≠ 0 ∧
    o.singleWordMatchLengthMultiplier ≠ 0 then t2 ++ [2] else t2
  let s4 : ℚ := if o.uniqueSingleWordMatchPoints ≠ 0 ∧
      o.uniqueSingleWordMatchLengthMultiplier ≠ 0 then
    s3 + o.uniqueSingleWordMatchPoints *
      getUniqueSingleWordMatchScore queryWords bodyWords
        o.uniqueSingleWordMatchLengthMultiplier else s3
  let t4 : List Nat := if o.uniqueSingleWordMatchPoints ≠ 0 ∧
    o.uniqueSingleWordMatchLengthMultiplier ≠ 0 then t3 ++ [3] else t3
  if (o.consecutiveWordMatchPoints ≠ 0 ∧ o.consecutiveWordMatchLengthMultiplier ≠ 0) ∨
      (o.consecutiveWordSequenceMatchPoints ≠ 0 ∧
        o.consecutiveWordSequenceLengthMultiplier ≠ 0) then
    match getConsecutiveWordSequenceMatchScore queryWords bodyWords
        o.consecutiveWordMatchLengthMultiplier
        o.consecutiveWordSequenceLengthMultiplier with
    | none => none
    | some (consecutiveWordScore, consecutiveWordSequenceScore) =>
        some (s4 + o.consecutiveWordMatchPoints * consecutiveWordScore +
          o.consecutiveWordSequenceMatchPoints * consecutiveWordSequenceScore,
          t4 ++ [4])
  else some (s4, t4)

/-- Embeds `search`: the score alone, `none` on the TypeError path. -/
def search (query body : Str) (o : SearchOptions) : Option ℚ :=
  (searchT query body o).map Prod.fst

/-! ## Specification-side definitions

These definitions follow the wording of the specification sentences under
verification (not the source); the theorems below compare them with the
source-derived definitions above. -/

/-- The count of body tokens equal to a query token, as the specification
words the inner scan bound of the consecutive scorer. -/
def countMatchingBodyTokens (bodyWords : List Str) (queryWord : Str) : Nat :=
  bodyWords.countP (fun w => w == queryWord)

/-- The inner scan as the specification describes it: from start position
`firstQueryWord`, the loop counter `k` runs over exactly
`countMatchingBodyTokens` iterations (`remaining` is initialised to that
count); each step compares the query token at `firstQueryWord + run` with
the body token indexed directly by the loop counter plus the current run
length (`k + run`); a mismatch stops the scan and reports the running
counts (`some`); exhausting the range reports nothing (`none`), leaving
the global maxima untouched. -/
def innerScanClaim (queryWords bodyWords : List Str) (firstQueryWord : Nat) :
    Nat → Nat → Nat → Nat → Option (Nat × Nat)
  | 0, _, _, _ => none
  | remaining + 1, k, run, len =>
      if queryWords.get? (firstQueryWord + run) = bodyWords.get? (k + run) then
        innerScanClaim queryWords bodyWords firstQueryWord remaining (k + 1) (run + 1)
          (len + ((bodyWords.get? (k + run)).getD []).length)
      else some (run, len)

/-- The whole consecutive scan as the specification describes it: walk
every start position, update the two global maxima only when the inner
scan breaks on a mismatch. -/
def consecClaim (queryWords bodyWords : List Str) :
    List Str → Nat → Nat → Nat → Nat × Nat
  | [], _, most, longest => (most, longest)
  | queryWord :: restStarts, i, most, longest =>
      match innerScanClaim queryWords bodyWords i
          (countMatchingBodyTokens bodyWords queryWord) 0 0 0 with
      | none => consecClaim queryWords bodyWords restStarts (i + 1) most longest
      | some (w, s) =>
          consecClaim queryWords bodyWords restStarts (i + 1)
            (Nat.max most w) (Nat.max longest s)

/-- No two adjacent whitespace characters (the shape of a string on which
the whitespace-collapsing replacement can match nothing). -/
def noDoubleWS : Str → Bool
  | [] => true
  | [_] => true
  | c1 :: c2 :: rest => !(isWS c1 && isWS c2) && noDoubleWS (c2 :: rest)

/-! ## Object-level model of the options merge

The source merges options with the object spread
`{...defaultSearchOptions, ...options}`.  The spread is modelled on JS
objects directly: an object is a list of own properties, and spreading
copies every own property of the override, whatever its value. -/

/-- The 14 option keys of `SearchOptions`. -/
inductive OptionKey where
  | exactMatchPoints
  | exactContainingMatchPoints
  | singleWordMatchPoints
  | singleWordMatchLengthMultiplier
  | uniqueSingleWordMatchPoints
  | uniqueSingleWordMatchLengthMultiplier
  | consecutiveWordMatchPoints
  | consecutiveWordMatchLengthMultiplier
  | consecutiveWordSequenceMatchPoints
  | consecutiveWordSequenceLengthMultiplier
  | isCaseSensitive
  | shouldMatchPunctuation
  | shouldMatchWhitespaceAndPunctuation
  | shouldCollapseWhitespace
  deriving DecidableEq

/-- A JS value held by an options record: a number, a boolean, or
`undefined`. -/
inductive JSValue where
  | num (q : ℚ)
  | boolean (b : Bool)
  | undef
  deriving DecidableEq

/-- A JS object, as its list of own properties. -/
abbrev JSObject := List (OptionKey × JSValue)

def hasOwn (o : JSObject) (k : OptionKey) : Bool :=
  o.any (fun kv => kv.1 == k)

def getOwn (o : JSObject) (k : OptionKey) : Option JSValue :=
  (o.find? (fun kv => kv.1 == k)).map (fun kv => kv.2)

/-- Embeds the object spread `{...d, ...o}`: the own properties of `o`,
whatever their values (including `undefined`), overwrite those of `d`. -/
def spreadMerge (d o : JSObject) : JSObject :=
  d.filter (fun kv => !hasOwn o kv.1) ++ o

/-- The source's `defaultSearchOptions` constant as a JS object. -/
def defaultsObject : JSObject :=
  [(OptionKey.exactMatchPoints, JSValue.num 70),
   (OptionKey.exactContainingMatchPoints, JSValue.num 50),
   (OptionKey.singleWordMatchPoints, JSValue.num 1),
   (OptionKey.singleWordMatchLengthMultiplier, JSValue.num (mkRat 3 2)),
   (OptionKey.uniqueSingleWordMatchPoints, JSValue.num 2),
   (OptionKey.uniqueSingleWordMatchLengthMultiplier, JSValue.num (mkRat 3 2)),
   (OptionKey.consecutiveWordMatchPoints, JSValue.num 5),
   (OptionKey.consecutiveWordMatchLengthMultiplier, JSValue.num 2),
   (OptionKey.consecutiveWordSequenceMatchPoints, JSValue.num 1),
   (OptionKey.consecutiveWordSequenceLengthMultiplier, JSValue.num (mkRat 3 2)),
   (OptionKey.isCaseSensitive, JSValue.boolean false),
   (OptionKey.shouldMatchPunctuation, JSValue.boolean true),
   (OptionKey.shouldMatchWhitespaceAndPunctuation, JSValue.boolean true),
   (OptionKey.shouldCollapseWhitespace, JSValue.boolean true)]

/-! ## Helper lemmas -/

theorem natQ_zero : natQ 0 = 0 := by decide

theorem aux_consecOuter_nil_body (queryWords : List Str) :
    ∀ (starts : List Str) (i most longest : Nat),
      consecOuter queryWords [] starts i most longest = some (most, longest) := by
  intro starts
  induction starts with
  | nil => intro i most longest; rfl
  | cons qw rest ih =>
      intro i most longest
      simp only [consecOuter, matchIndexes, List.enum_nil, List.filterMap_nil,
        List.length_nil, consecInner]
      exact ih (i + 1) most longest

theorem aux_single_nil_body (queryWords : List Str) (m : ℚ) :
    getSingleWordMatchScore queryWords [] m = 0 := by
  induction queryWords with
  | nil => rfl
  | cons qw rest ih =>
      simp [getSingleWordMatchScore, ih]

theorem aux_unique_nil_body (queryWords : List Str) (m : ℚ) :
    getUniqueSingleWordMatchScore queryWords [] m = 0 := by
  induction queryWords with
  | nil => rfl
  | cons qw rest ih =>
      simp [getUniqueSingleWordMatchScore, ih]

/-- Claim C4: empty strings and empty token sequences are valid inputs.
Every token-based strategy does yield 0 on an empty query or body token
sequence, and the consecutive scorer completes without failing there; but
the exact-containing matcher applied to the empty query yields
`body.length + 1` (the empty pattern matches at every position), not 0,
so with a nonzero weight the strategy's contribution on an empty query is
`exactContainingMatchPoints * (body.length + 1)`. -/
theorem spec_c4 :
    (∀ (bodyWords : List Str) (m : ℚ), getSingleWordMatchScore [] bodyWords m = 0) ∧
    (∀ (queryWords : List Str) (m : ℚ), getSingleWordMatchScore queryWords [] m = 0) ∧
    (∀ (bodyWords : List Str) (m : ℚ), getUniqueSingleWordMatchScore [] bodyWords m = 0) ∧
    (∀ (queryWords : List Str) (m : ℚ), getUniqueSingleWordMatchScore queryWords [] m = 0) ∧
    (∀ (bodyWords : List Str) (m1 m2 : ℚ),
      getConsecutiveWordSequenceMatchScore [] bodyWords m1 m2 = some (0, 0)) ∧
    (∀ (queryWords : List Str) (m1 m2 : ℚ),
      getConsecutiveWordSequenceMatchScore queryWords [] m1 m2 = some (0, 0)) ∧
    (∀ body : Str, getExactContainingMatchScore [] body = natQ (body.length + 1)) := by
  refine ⟨fun bodyWords m => rfl, aux_single_nil_body, fun bodyWords m => rfl,
    aux_unique_nil_body, ?_, ?_, fun body => rfl⟩
  · intro bodyWords m1 m2
    simp [getConsecutiveWordSequenceMatchScore, consecOuter, natQ_zero]
  · intro queryWords m1 m2
    simp [getConsecutiveWordSequenceMatchScore, aux_consecOuter_nil_body, natQ_zero]

/-- Claim C4, counterexample to the exact-containing part as stated: with
default options, the empty query against the non-empty body `"a"` makes
the exact-containing matcher return 2, and its contribution to the
returned score is 50 × 2 = 100, not 0. -/
theorem spec_c4_counterexample :
    getExactContainingMatchScore [] ['a'] = 2 ∧
    search [] ['a'] defaultSearchOptions = some 100 := by
  constructor
  · with_unfolding_all decide
  · with_unfolding_all decide

/-- Claim C1: the failing input.  With options differing from the defaults
only in `shouldMatchWhitespaceAndPunctuation := false`, the query `"a"`
(which contains no special pattern character) against the body `"a a"`
makes the consecutive scorer's inner scan reach a step where both the
query index and the scanned body index are out of range: JS `!==` on two
`undefined` values is false, so the loop does not break and then reads
`.length` of `undefined`, throwing a TypeError.  The embedded search
reaches the failure path (`none`) instead of returning a number. -/
theorem spec_c1 :
    search ['a'] ['a', ' ', 'a']
      { defaultSearchOptions with shouldMatchWhitespaceAndPunctuation := false } = none := by
  with_unfolding_all decide

/-- Claim C3: evaluation of the code at the failing input.  The query
token list `["cat", "cat"]` repeats one distinct token that the body
token list `["cat"]` matches; the claim says the distinct token
contributes exactly once (3 × 1 × 1 = 3), but the source keeps every
repetition of the query token in `sharedWords`, so the score is 6. -/
theorem spec_c3 :
    getUniqueSingleWordMatchScore [['c', 'a', 't'], ['c', 'a', 't']] [['c', 'a', 't']] 1 = 6 ∧
    (6 : ℚ) ≠ 3 := by
  constructor
  · with_unfolding_all decide
  · decide

theorem aux_find?_key_none_of_not_hasOwn (o : JSObject) (k : OptionKey)
    (h : hasOwn o k = false) : o.find? (fun kv => kv.1 == k) = none := by
  rw [List.find?_eq_none]
  intro kv hmem hbeq
  have : hasOwn o k = true := by
    simp only [hasOwn, List.any_eq_true]
    exact ⟨kv, hmem, hbeq⟩
  simp [this] at h

/-- Claim C5, amended: the effective configuration is the defaults
overwritten at exactly the keys present in the override.  A key absent
from the override retains its default; a key present in the override
takes the override's value even when that value is `undefined` (the
object spread copies every own property); no other validation or
transformation is applied. -/
theorem spec_c5 (override : JSObject) (k : OptionKey) :
    getOwn (spreadMerge defaultsObject override) k =
      if hasOwn override k then getOwn override k else getOwn defaultsObject k := by
  unfold getOwn spreadMerge
  rw [List.find?_append]
  by_cases h : hasOwn override k
  · rw [if_pos h]
    have hnone : (defaultsObject.filter
        (fun kv => !hasOwn override kv.1)).find? (fun kv => kv.1 == k) = none := by
      rw [List.find?_eq_none]
      intro kv hmem hbeq
      rcases List.mem_filter.mp hmem with ⟨-, hkeep⟩
      rw [beq_iff_eq] at hbeq
      rw [hbeq] at hkeep
      simp [h] at hkeep
    rw [hnone, Option.none_or]
  · rw [if_neg h]
    rw [Bool.not_eq_true] at h
    have hruns : override.find? (fun kv => kv.1 == k) = none :=
      aux_find?_key_none_of_not_hasOwn override k h
    rw [hruns, Option.or_none, List.find?_filter]
    have hpred : (fun a : OptionKey × JSValue =>
        decide ((!hasOwn override a.1) = true ∧ (a.1 == k) = true)) =
          (fun kv : OptionKey × JSValue => kv.1 == k) := by
      funext kv
      by_cases hkv : kv.1 = k
      · simp [hkv, h]
      · simp [hkv]
    rw [hpred]

/-- Claim C5, counterexample to the claim as stated: a key present in the
override with value `undefined` does not retain its default — the spread
copies the `undefined` over the default 70. -/
theorem spec_c5_counterexample :
    getOwn (spreadMerge defaultsObject [(OptionKey.exactMatchPoints, JSValue.undef)])
        OptionKey.exactMatchPoints = some JSValue.undef ∧
      some JSValue.undef ≠ some (JSValue.num 70) := by
  constructor
  · with_unfolding_all decide
  · with_unfolding_all decide

/-- Claim C9: the dampening multiplier is 1/10 for one-character tokens in
the punctuation/symbol class, 1/2 for exactly the five case-sensitively
matched stop-words (the function inspects only the token itself — it
receives no flag — so `isCaseSensitive` cannot influence it), and 1
otherwise; consequently a shared token "the" contributes exactly half the
length-weighted frequency score of an equally long shared token that is
not itself a stop-word. -/
theorem spec_c9 :
    (∀ c : Char, isMultPunct c = true → getCustomWordMultiplier [c] = mkRat 1 10) ∧
    (∀ w : Str, (w = theWord ∨ w = aWord ∨ w = ofWord ∨ w = capIWord ∨ w = andWord) →
      getCustomWordMultiplier w = mkRat 1 2) ∧
    (∀ w : Str, ¬(w.length = 1 ∧ w.any isMultPunct) →
      ¬(w = theWord ∨ w = aWord ∨ w = ofWord ∨ w = capIWord ∨ w = andWord) →
      getCustomWordMultiplier w = 1) ∧
    (∀ (w : Str) (m : ℚ), w.length = 3 → w ≠ theWord → w ≠ andWord →
      getUniqueSingleWordMatchScore [theWord] [theWord] m =
        mkRat 1 2 * getUniqueSingleWordMatchScore [w] [w] m) := by
  refine ⟨?_, ?_, ?_, ?_⟩
  · intro c hc
    simp [getCustomWordMultiplier, hc]
  · intro w hw
    rcases hw with rfl | rfl | rfl | rfl | rfl <;> with_unfolding_all decide
  · intro w h1 h2
    rw [getCustomWordMultiplier, if_neg h1, if_neg h2]
  · intro w m h3 hthe hand
    have hmw : getCustomWordMultiplier w = 1 := by
      rw [getCustomWordMultiplier, if_neg, if_neg]
      · rintro (rfl | rfl | rfl | rfl | rfl) <;> simp_all [theWord, aWord, ofWord,
          capIWord, andWord]
      · rintro ⟨h1, -⟩
        rw [h3] at h1
        exact absurd h1 (by decide)
    have hmthe : getCustomWordMultiplier theWord = mkRat 1 2 := by
      with_unfolding_all decide
    have hw : getUniqueSingleWordMatchScore [w] [w] m =
        0 + natQ w.length * m * getCustomWordMultiplier w := by
      simp [getUniqueSingleWordMatchScore]
    have hthe2 : getUniqueSingleWordMatchScore [theWord] [theWord] m =
        0 + natQ theWord.length * m * getCustomWordMultiplier theWord := by
      simp [getUniqueSingleWordMatchScore]
    rw [hw, hthe2, hmw, hmthe, h3]
    have : theWord.length = 3 := by decide
    rw [this]
    ring

/-- Witness for C9 at concrete inputs: the period character, the
stop-word "of", and the token "fox" against "the". -/
theorem spec_c9_witness :
    getCustomWordMultiplier [Char.ofNat 46] = mkRat 1 10 ∧
    getCustomWordMultiplier ofWord = mkRat 1 2 ∧
    getCustomWordMultiplier ['f', 'o', 'x'] = 1 ∧
    getUniqueSingleWordMatchScore [theWord] [theWord] 2 =
      mkRat 1 2 * getUniqueSingleWordMatchScore [['f', 'o', 'x']] [['f', 'o', 'x']] 2 :=
  ⟨spec_c9.1 (Char.ofNat 46) (by decide),
   spec_c9.2.1 ofWord (Or.inr (Or.inr (Or.inl rfl))),
   spec_c9.2.2.1 ['f', 'o', 'x'] (by decide) (by decide),
   spec_c9.2.2.2 ['f', 'o', 'x'] 2 (by decide) (by decide) (by decide)⟩

theorem aux_modifyHead_id {α : Type} (l : List α) : l.modifyHead (fun w => w) = l := by
  cases l <;> simp

theorem aux_matchNonWSAcc_eq (l : Str) : ∀ acc : Str,
    matchNonWSAcc l acc =
      ((l.splitOnP isWS).modifyHead (fun w => acc.reverse ++ w)).filter
        (fun w => !w.isEmpty) := by
  induction l with
  | nil =>
      intro acc
      by_cases h : acc = []
      · subst h
        simp [matchNonWSAcc, List.splitOnP_nil]
      · simp [matchNonWSAcc, List.splitOnP_nil, h]
  | cons c rest ih =>
      intro acc
      rw [matchNonWSAcc]
      by_cases hws : isWS c
      · by_cases h : acc = []
        · subst h
          simp [hws, ih [], aux_modifyHead_id, List.splitOnP_cons]
        · simp [hws, h, ih [], aux_modifyHead_id, List.splitOnP_cons, List.filter_cons]
      · have hws2 : isWS c = false := by simpa using hws
        simp only [hws2, Bool.false_eq_true, if_false]
        rw [ih (c :: acc), List.splitOnP_cons, hws2]
        simp only [Bool.false_eq_true, if_false, List.modifyHead_modifyHead]
        have hfun : ((fun w : Str => acc.reverse ++ w) ∘ (List.cons c)) =
            (fun w : Str => (c :: acc).reverse ++ w) := by
          funext w
          simp
        rw [hfun]

/-- Claim C10: in word-only mode the tokenizer returns exactly the maximal
runs of non-whitespace characters (here characterised independently by
splitting on whitespace and discarding the empty fragments), for both
values of `shouldMatchPunctuation`: the filter expression of that branch
discards its result, so the flag cannot influence the output. -/
theorem spec_c10 (text : Str) (shouldMatchPunctuation : Bool) :
    getWords text false shouldMatchPunctuation =
      (text.splitOnP isWS).filter (fun w => !w.isEmpty) := by
  have h : getWords text false shouldMatchPunctuation = matchNonWS text := rfl
  rw [h, matchNonWS, aux_matchNonWSAcc_eq]
  have hfun : (fun w : Str => List.reverse [] ++ w) = id := by
    funext w
    simp
  rw [hfun]
  have hid : (text.splitOnP isWS).modifyHead id = text.splitOnP isWS := by
    cases text.splitOnP isWS <;> simp
  rw [hid]

theorem aux_enumFrom_filterMap_length (qw : Str) (b : List Str) : ∀ n : Nat,
    ((b.enumFrom n).filterMap (fun p => if p.2 = qw then some p.1 else none)).length =
      b.countP (fun w => w == qw) := by
  induction b with
  | nil => intro n; rfl
  | cons x rest ih =>
      intro n
      rw [List.enumFrom_cons, List.filterMap_cons, List.countP_cons]
      by_cases h : x = qw
      · simp [h, ih (n + 1)]
      · simp [h, ih (n + 1)]

theorem aux_matchIndexes_length (b : List Str) (qw : Str) :
    (matchIndexes b qw).length = countMatchingBodyTokens b qw := by
  rw [matchIndexes, countMatchingBodyTokens, List.enum]
  exact aux_enumFrom_filterMap_length qw b 0

theorem aux_consecInner_eq (queryWords bodyWords : List Str) (i : Nat) :
    ∀ (r k ccw seq : Nat) (v : Option (Nat × Nat)),
      consecInner queryWords bodyWords i r k ccw seq = some v →
        v = innerScanClaim queryWords bodyWords i r k ccw seq := by
  intro r
  induction r with
  | zero =>
      intro k ccw seq v hv
      rw [consecInner] at hv
      rw [innerScanClaim]
      exact (Option.some.injEq _ _ ▸ hv).symm
  | succ r ih =>
      intro k ccw seq v hv
      rw [consecInner] at hv
      rw [innerScanClaim]
      by_cases heq : queryWords.get? (i + ccw) = bodyWords.get? (k + ccw)
      · rw [if_neg (by simpa using heq)] at hv
        rw [if_pos heq]
        cases hb : bodyWords.get? (k + ccw) with
        | none =>
            rw [hb] at hv
            simp at hv
        | some w =>
            rw [hb] at hv
            simp only [hb, Option.getD_some]
            exact ih (k + 1) (ccw + 1) (seq + w.length) v hv
      · rw [if_pos heq, Option.some.injEq] at hv
        rw [if_neg heq]
        exact hv.symm

theorem aux_consecOuter_eq (queryWords bodyWords : List Str) :
    ∀ (starts : List Str) (i most longest : Nat) (res : Nat × Nat),
      consecOuter queryWords bodyWords starts i most longest = some res →
        res = consecClaim queryWords bodyWords starts i most longest := by
  intro starts
  induction starts with
  | nil =>
      intro i most longest res h
      rw [consecOuter, Option.some.injEq] at h
      rw [consecClaim]
      exact h.symm
  | cons qw rest ih =>
      intro i most longest res h
      rw [consecOuter] at h
      rw [consecClaim, ← aux_matchIndexes_length]
      cases hinner : consecInner queryWords bodyWords i
          (matchIndexes bodyWords qw).length 0 0 0 with
      | none => rw [hinner] at h; exact absurd h (by simp)
      | some v =>
          have hv := aux_consecInner_eq queryWords bodyWords i _ 0 0 0 v hinner
          rw [hinner] at h
          cases v with
          | none =>
              rw [← hv]
              exact ih (i + 1) most longest res h
          | some ws =>
              rw [← hv]
              exact ih (i + 1) (Nat.max most ws.1) (Nat.max longest ws.2) res h

/-- Claim C2: the inner scan of the consecutive scorer is bounded by the
count of body tokens equal to the current start token (the length of the
index list built from matches equals the occurrence count), it indexes
`bodyTokens` directly at the loop counter plus the current run length,
and the global maxima are updated only when a mismatch breaks the scan —
a scan that exhausts its range reports nothing.  Formally: whenever the
source-derived scan completes, its result coincides with the
specification-worded procedure `consecClaim` built from
`innerScanClaim`. -/
theorem spec_c2 (queryWords bodyWords : List Str) (qw : Str) :
    (matchIndexes bodyWords qw).length = countMatchingBodyTokens bodyWords qw ∧
    (∀ res : Nat × Nat,
      consecOuter queryWords bodyWords queryWords 0 0 0 = some res →
        res = consecClaim queryWords bodyWords queryWords 0 0 0) :=
  ⟨aux_matchIndexes_length bodyWords qw,
   fun res h => aux_consecOuter_eq queryWords bodyWords queryWords 0 0 0 res h⟩

/-- Witness for C2 at a concrete input: query tokens `["a", "x"]` against
body tokens `["a", "a"]` (the scan for start "a" matches once and then
breaks on a mismatch, reporting run 1 and length 1; the scan for start
"x" has an empty range). -/
theorem spec_c2_witness :
    (matchIndexes [['a'], ['a']] ['a']).length =
      countMatchingBodyTokens [['a'], ['a']] ['a'] ∧
    ((1, 1) : Nat × Nat) = consecClaim [['a'], ['x']] [['a'], ['a']] [['a'], ['x']] 0 0 0 :=
  ⟨(spec_c2 [['a'], ['x']] [['a'], ['a']] ['a']).1,
   (spec_c2 [['a'], ['x']] [['a'], ['a']] ['a']).2 (1, 1) (by with_unfolding_all decide)⟩

theorem natQ_eq (n : Nat) : natQ n = (n : ℚ) := by
  rw [natQ, Rat.mkRat_one]
  norm_cast

theorem natQ_nonneg (n : Nat) : 0 ≤ natQ n := by
  rw [natQ_eq]
  positivity

theorem aux_customMult_nonneg (w : Str) : 0 ≤ getCustomWordMultiplier w := by
  rw [getCustomWordMultiplier]
  split_ifs
  · exact Rat.mkRat_nonneg (by norm_num) _
  · exact Rat.mkRat_nonneg (by norm_num) _
  · norm_num

theorem aux_foldl_add_nonneg (f : Str → ℚ) (hf : ∀ w, 0 ≤ f w) :
    ∀ (l : List Str) (s : ℚ), 0 ≤ s → 0 ≤ l.foldl (fun acc w => acc + f w) s := by
  intro l
  induction l with
  | nil => intro s hs; exact hs
  | cons x rest ih =>
      intro s hs
      rw [List.foldl_cons]
      exact ih (s + f x) (add_nonneg hs (hf x))

theorem aux_exact_nonneg (query body : Str) : 0 ≤ getExactMatchScore query body := by
  rw [getExactMatchScore]
  split_ifs <;> norm_num

theorem aux_containing_nonneg (query body : Str) :
    0 ≤ getExactContainingMatchScore query body :=
  natQ_nonneg _

theorem aux_single_nonneg (queryWords bodyWords : List Str) (m : ℚ) (hm : 0 ≤ m) :
    0 ≤ getSingleWordMatchScore queryWords bodyWords m := by
  rw [getSingleWordMatchScore]
  exact aux_foldl_add_nonneg
    (fun queryWord => natQ (bodyWords.filter (fun bodyWord => bodyWord == queryWord)).length *
      natQ queryWord.length * m * getCustomWordMultiplier queryWord)
    (fun w => mul_nonneg (mul_nonneg (mul_nonneg (natQ_nonneg _) (natQ_nonneg _)) hm)
      (aux_customMult_nonneg w)) _ 0 le_rfl

theorem aux_unique_nonneg (queryWords bodyWords : List Str) (m : ℚ) (hm : 0 ≤ m) :
    0 ≤ getUniqueSingleWordMatchScore queryWords bodyWords m := by
  rw [getUniqueSingleWordMatchScore]
  exact aux_foldl_add_nonneg
    (fun word => natQ word.length * m * getCustomWordMultiplier word)
    (fun w => mul_nonneg (mul_nonneg (natQ_nonneg _) hm) (aux_customMult_nonneg w)) _ 0 le_rfl

theorem aux_consec_nonneg (queryWords bodyWords : List Str) (m1 m2 : ℚ)
    (h1 : 0 ≤ m1) (h2 : 0 ≤ m2) (x y : ℚ)
    (h : getConsecutiveWordSequenceMatchScore queryWords bodyWords m1 m2 = some (x, y)) :
    0 ≤ x ∧ 0 ≤ y := by
  rw [getConsecutiveWordSequenceMatchScore] at h
  cases hout : consecOuter queryWords bodyWords queryWords 0 0 0 with
  | none => rw [hout] at h; exact absurd h (by simp)
  | some p =>
      rw [hout, Option.some.injEq, Prod.mk.injEq] at h
      obtain ⟨hx, hy⟩ := h
      constructor
      · rw [← hx]; exact mul_nonneg (natQ_nonneg _) h1
      · rw [← hy]; exact mul_nonneg (natQ_nonneg _) h2

set_option maxHeartbeats 1600000 in
/-- Claim C7: with nonnegative point weights and length multipliers, every
value `search` returns is nonnegative. -/
theorem spec_c7 (query body : Str) (o : SearchOptions) (r : ℚ)
    (he : 0 ≤ o.exactMatchPoints) (hec : 0 ≤ o.exactContainingMatchPoints)
    (hsp : 0 ≤ o.singleWordMatchPoints) (hsm : 0 ≤ o.singleWordMatchLengthMultiplier)
    (hup : 0 ≤ o.uniqueSingleWordMatchPoints)
    (hum : 0 ≤ o.uniqueSingleWordMatchLengthMultiplier)
    (hcp : 0 ≤ o.consecutiveWordMatchPoints)
    (hcm : 0 ≤ o.consecutiveWordMatchLengthMultiplier)
    (hsqp : 0 ≤ o.consecutiveWordSequenceMatchPoints)
    (hsqm : 0 ≤ o.consecutiveWordSequenceLengthMultiplier)
    (hres : search query body o = some r) : 0 ≤ r := by
  rw [search] at hres
  cases hT : searchT query body o with
  | none => rw [hT] at hres; exact absurd hres (by simp)
  | some p =>
      obtain ⟨pv, pt⟩ := p
      rw [hT] at hres
      simp only [Option.map_some'] at hres
      replace hres : pv = r := Option.some.inj hres
      subst hres
      simp only [searchT] at hT
      set fq := getConfiguredText query o.isCaseSensitive o.shouldMatchPunctuation
        o.shouldCollapseWhitespace with hfq
      set fb := getConfiguredText body o.isCaseSensitive o.shouldMatchPunctuation
        o.shouldCollapseWhitespace with hfb
      set qws := getWords fq o.shouldMatchWhitespaceAndPunctuation
        o.shouldMatchPunctuation with hqws
      set bws := getWords fb o.shouldMatchWhitespaceAndPunctuation
        o.shouldMatchPunctuation with hbws
      have H1 : 0 ≤ o.exactMatchPoints * getExactMatchScore fq fb :=
        mul_nonneg he (aux_exact_nonneg _ _)
      have H2 : 0 ≤ o.exactContainingMatchPoints * getExactContainingMatchScore fq fb :=
        mul_nonneg hec (aux_containing_nonneg _ _)
      have H3 : 0 ≤ o.singleWordMatchPoints *
          getSingleWordMatchScore qws bws o.singleWordMatchLengthMultiplier :=
        mul_nonneg hsp (aux_single_nonneg _ _ _ hsm)
      have H4 : 0 ≤ o.uniqueSingleWordMatchPoints *
          getUniqueSingleWordMatchScore qws bws o.uniqueSingleWordMatchLengthMultiplier :=
        mul_nonneg hup (aux_unique_nonneg _ _ _ hum)
      cases hcons : getConsecutiveWordSequenceMatchScore qws bws
          o.consecutiveWordMatchLengthMultiplier
          o.consecutiveWordSequenceLengthMultiplier with
      | none =>
          simp only [hcons] at hT
          split_ifs at hT with h1 h2 h3 h4 h5
          all_goals (rw [Option.some.injEq, Prod.mk.injEq] at hT)
          all_goals (obtain ⟨hv, -⟩ := hT)
          all_goals (subst hv)
          all_goals (linarith [H1, H2, H3, H4])
      | some pq =>
          obtain ⟨cw, cws⟩ := pq
          obtain ⟨hxx, hyy⟩ := aux_consec_nonneg _ _ _ _ hcm hsqm _ _ hcons
          have H5 : 0 ≤ o.consecutiveWordMatchPoints * cw := mul_nonneg hcp hxx
          have H6 : 0 ≤ o.consecutiveWordSequenceMatchPoints * cws := mul_nonneg hsqp hyy
          simp only [hcons] at hT
          split_ifs at hT with h1 h2 h3 h4 h5
          all_goals (rw [Option.some.injEq, Prod.mk.injEq] at hT)
          all_goals (obtain ⟨hv, -⟩ := hT)
          all_goals (subst hv)
          all_goals (linarith [H1, H2, H3, H4, H5, H6])

/-- Witness for C7 at a concrete input: default options (all weights
nonnegative) on query "a", body "a b". -/
theorem spec_c7_witness : (0 : ℚ) ≤ mkRat 209 4 :=
  spec_c7 ['a'] ['a', ' ', 'b'] defaultSearchOptions (mkRat 209 4)
    (by norm_num [defaultSearchOptions]) (by norm_num [defaultSearchOptions])
    (by norm_num [defaultSearchOptions])
    (by rw [defaultSearchOptions]; exact Rat.mkRat_nonneg (by norm_num) _)
    (by norm_num [defaultSearchOptions])
    (by rw [defaultSearchOptions]; exact Rat.mkRat_nonneg (by norm_num) _)
    (by norm_num [defaultSearchOptions]) (by norm_num [defaultSearchOptions])
    (by norm_num [defaultSearchOptions])
    (by rw [defaultSearchOptions]; exact Rat.mkRat_nonneg (by norm_num) _)
    (by with_unfolding_all decide)

set_option maxHeartbeats 1600000 in
/-- Claim C6, amended: with all six point weights 0, `search` returns
exactly 0 and invokes no scorer (the empty trace); a strategy guarded by
its own point weight (exact, exact-containing) or by its point weight and
length multiplier (single-word, unique single-word) is skipped, with its
scorer uninvoked, whenever that guard is 0.  The two consecutive
strategies share one scorer, whose guard is a disjunction: it is skipped
only when each of the two (points, multiplier) pairs contains a zero, so
zeroing only `consecutiveWordMatchPoints` does not prevent the shared
scorer from running (see the counterexample). -/
theorem spec_c6 :
    (∀ (query body : Str) (o : SearchOptions),
      o.exactMatchPoints = 0 → o.exactContainingMatchPoints = 0 →
      o.singleWordMatchPoints = 0 → o.uniqueSingleWordMatchPoints = 0 →
      o.consecutiveWordMatchPoints = 0 → o.consecutiveWordSequenceMatchPoints = 0 →
      searchT query body o = some (0, [])) ∧
    (∀ (query body : Str) (o : SearchOptions) (s : ℚ) (t : List Nat),
      searchT query body o = some (s, t) →
        (o.exactMatchPoints = 0 → 0 ∉ t) ∧
        (o.exactContainingMatchPoints = 0 → 1 ∉ t) ∧
        ((o.singleWordMatchPoints = 0 ∨ o.singleWordMatchLengthMultiplier = 0) → 2 ∉ t) ∧
        ((o.uniqueSingleWordMatchPoints = 0 ∨
          o.uniqueSingleWordMatchLengthMultiplier = 0) → 3 ∉ t) ∧
        (((o.consecutiveWordMatchPoints = 0 ∨ o.consecutiveWordMatchLengthMultiplier = 0) ∧
          (o.consecutiveWordSequenceMatchPoints = 0 ∨
            o.consecutiveWordSequenceLengthMultiplier = 0)) → 4 ∉ t)) := by
  constructor
  · intro query body o h1 h2 h3 h4 h5 h6
    simp [searchT, h1, h2, h3, h4, h5, h6]
  · intro query body o s t hT
    simp only [searchT] at hT
    cases hcons : getConsecutiveWordSequenceMatchScore
        (getWords (getConfiguredText query o.isCaseSensitive o.shouldMatchPunctuation
          o.shouldCollapseWhitespace) o.shouldMatchWhitespaceAndPunctuation
          o.shouldMatchPunctuation)
        (getWords (getConfiguredText body o.isCaseSensitive o.shouldMatchPunctuation
          o.shouldCollapseWhitespace) o.shouldMatchWhitespaceAndPunctuation
          o.shouldMatchPunctuation)
        o.consecutiveWordMatchLengthMultiplier
        o.consecutiveWordSequenceLengthMultiplier with
    | none =>
        simp only [hcons] at hT
        split_ifs at hT with h1 h2 h3 h4 h5
        all_goals (rw [Option.some.injEq, Prod.mk.injEq] at hT)
        all_goals (obtain ⟨-, ht⟩ := hT)
        all_goals (subst ht)
        all_goals (refine ⟨fun hz => ?_, fun hz => ?_, fun hz => ?_, fun hz => ?_,
          fun hz => ?_⟩)
        all_goals (first
          | decide
          | (exfalso; tauto))
    | some pq =>
        obtain ⟨cw, cws⟩ := pq
        simp only [hcons] at hT
        split_ifs at hT with h1 h2 h3 h4 h5
        all_goals (rw [Option.some.injEq, Prod.mk.injEq] at hT)
        all_goals (obtain ⟨-, ht⟩ := hT)
        all_goals (subst ht)
        all_goals (refine ⟨fun hz => ?_, fun hz => ?_, fun hz => ?_, fun hz => ?_,
          fun hz => ?_⟩)
        all_goals (first
          | decide
          | (exfalso; tauto))

/-- Claim C6, counterexample to "each strategy whose governing point
weight is 0 is skipped without its scorer being invoked": with
`consecutiveWordMatchPoints := 0` but the sequence pair enabled, the
shared consecutive scorer is still invoked — observably, since on this
input it fails (the TypeError path), so `searchT` returns `none` instead
of a value. -/
theorem spec_c6_counterexample :
    searchT ['a'] ['a', ' ', 'a']
      { defaultSearchOptions with
          consecutiveWordMatchPoints := 0,
          shouldMatchWhitespaceAndPunctuation := false } = none := by
  with_unfolding_all decide

/-- Witness for C6 at concrete inputs: an all-zero-weight record returns
exactly 0 with no scorer invoked; with only `singleWordMatchPoints` zeroed
the single-word scorer (tag 2) is absent from the trace. -/
theorem spec_c6_witness :
    searchT ['a'] ['b']
      { defaultSearchOptions with
          exactMatchPoints := 0, exactContainingMatchPoints := 0,
          singleWordMatchPoints := 0, uniqueSingleWordMatchPoints := 0,
          consecutiveWordMatchPoints := 0,
          consecutiveWordSequenceMatchPoints := 0 } = some (0, []) ∧
    (2 : Nat) ∉ ([0, 1, 3, 4] : List Nat) :=
  ⟨spec_c6.1 ['a'] ['b'] _ (by with_unfolding_all decide) (by with_unfolding_all decide)
      (by with_unfolding_all decide) (by with_unfolding_all decide)
      (by with_unfolding_all decide) (by with_unfolding_all decide),
   (spec_c6.2 ['a'] ['a'] { defaultSearchOptions with singleWordMatchPoints := 0 }
      (mkRat 243 2) [0, 1, 3, 4] (by with_unfolding_all decide)).2.2.1
      (Or.inl (by with_unfolding_all decide))⟩

theorem aux_char_toNat_ofNat {n : Nat} (h : n.isValidChar) : (Char.ofNat n).toNat = n := by
  unfold Char.ofNat
  rw [dif_pos h]
  rfl

theorem aux_toLower_idem (c : Char) : c.toLower.toLower = c.toLower := by
  unfold Char.toLower
  by_cases h : c.toNat ≥ 65 ∧ c.toNat ≤ 90
  · rw [if_pos h]
    have h2 := h.2
    have hv : (c.toNat + 32).isValidChar := Or.inl (by omega)
    have ht : (Char.ofNat (c.toNat + 32)).toNat = c.toNat + 32 := aux_char_toNat_ofNat hv
    rw [ht, if_neg (by omega)]
  · rw [if_neg h, if_neg h]

theorem aux_map_toLower_fixed : ∀ l : Str, (∀ c ∈ l, c.toLower = c) →
    l.map Char.toLower = l := by
  intro l
  induction l with
  | nil => intro _; rfl
  | cons c rest ih =>
      intro h
      rw [List.map_cons, h c (List.mem_cons_self c rest),
        ih (fun d hd => h d (List.mem_cons_of_mem c hd))]

theorem aux_mem_map_toLower (l : Str) (c : Char) (h : c ∈ l.map Char.toLower) :
    c.toLower = c := by
  rcases List.mem_map.mp h with ⟨d, -, rfl⟩
  exact aux_toLower_idem d

theorem aux_noDouble_tail (c : Char) (L : Str) (h : noDoubleWS (c :: L) = true) :
    noDoubleWS L = true := by
  cases L with
  | nil => rfl
  | cons d t =>
      rw [noDoubleWS, Bool.and_eq_true] at h
      exact h.2

theorem aux_noDouble_head2 (c d : Char) (t : Str) (h : noDoubleWS (c :: d :: t) = true)
    (hc : isWS c = true) : isWS d = false := by
  rw [noDoubleWS, Bool.and_eq_true] at h
  have h1 := h.1
  rw [hc] at h1
  simpa using h1

theorem aux_noDouble_cons (x : Char) (L : Str) (hx : isWS x = false)
    (hL : noDoubleWS L = true) : noDoubleWS (x :: L) = true := by
  cases L with
  | nil => rfl
  | cons y t =>
      rw [noDoubleWS, Bool.and_eq_true]
      exact ⟨by rw [hx]; rfl, hL⟩

theorem aux_noDouble_cons2 (x y : Char) (L : Str) (hy : isWS y = false)
    (h : noDoubleWS (y :: L) = true) : noDoubleWS (x :: y :: L) = true := by
  rw [noDoubleWS, Bool.and_eq_true]
  exact ⟨by rw [hy]; simp, h⟩

theorem aux_collapseWSGo_noDouble : ∀ l : Str,
    noDoubleWS (collapseWSGo l none) = true ∧
    (∀ w : Char, ∀ b : Bool, noDoubleWS (collapseWSGo l (some (w, b))) = true) := by
  intro l
  induction l with
  | nil =>
      refine ⟨rfl, fun w b => ?_⟩
      cases b <;> rfl
  | cons c rest ih =>
      constructor
      · by_cases hc : isWS c
        · rw [collapseWSGo, if_pos hc]
          exact ih.2 c false
        · rw [collapseWSGo, if_neg hc]
          exact aux_noDouble_cons c _ (by simpa using hc) ih.1
      · intro w b
        by_cases hc : isWS c
        · rw [collapseWSGo, if_pos hc]
          exact ih.2 w true
        · rw [collapseWSGo, if_neg hc]
          exact aux_noDouble_cons2 _ c _ (by simpa using hc)
            (aux_noDouble_cons c _ (by simpa using hc) ih.1)

theorem aux_collapseWSGo_fixed : ∀ l : Str,
    (noDoubleWS l = true → collapseWSGo l none = l) ∧
    (∀ w : Char, noDoubleWS l = true → (∀ d : Char, l.head? = some d → isWS d = false) →
      collapseWSGo l (some (w, false)) = w :: l) := by
  intro l
  induction l with
  | nil => exact ⟨fun _ => rfl, fun w _ _ => rfl⟩
  | cons c rest ih =>
      constructor
      · intro hnd
        by_cases hc : isWS c
        · rw [collapseWSGo, if_pos hc]
          refine ih.2 c (aux_noDouble_tail c rest hnd) ?_
          intro d hd
          cases rest with
          | nil => simp at hd
          | cons e t =>
              rw [List.head?_cons, Option.some.injEq] at hd
              rw [← hd]
              exact aux_noDouble_head2 c e t hnd hc
        · rw [collapseWSGo, if_neg hc, ih.1 (aux_noDouble_tail c rest hnd)]
      · intro w hnd hhead
        have hc : isWS c = false := hhead c rfl
        rw [collapseWSGo, if_neg (by simp [hc]), if_neg (by simp),
          ih.1 (aux_noDouble_tail c rest hnd)]

theorem aux_mem_collapseWSGo : ∀ (l : Str) (st : Option (Char × Bool)) (c : Char),
    c ∈ collapseWSGo l st →
      c ∈ l ∨ c = spaceChar ∨ (∃ w : Char, ∃ b : Bool, st = some (w, b) ∧ c = w) := by
  intro l
  induction l with
  | nil =>
      intro st c hc
      match st with
      | none => simp [collapseWSGo] at hc
      | some (w, b) =>
          rw [collapseWSGo] at hc
          by_cases hb : b = true
          · subst hb
            simp at hc
            exact Or.inr (Or.inl hc)
          · have hb2 : b = false := by simpa using hb
            subst hb2
            simp at hc
            exact Or.inr (Or.inr ⟨w, false, rfl, hc⟩)
  | cons x rest ih =>
      intro st c hc
      match st with
      | none =>
          rw [collapseWSGo] at hc
          by_cases hx : isWS x
          · rw [if_pos hx] at hc
            rcases ih (some (x, false)) c hc with h | h | ⟨w, b, hw, rfl⟩
            · exact Or.inl (List.mem_cons_of_mem x h)
            · exact Or.inr (Or.inl h)
            · rw [Option.some.injEq, Prod.mk.injEq] at hw
              exact Or.inl (by rw [hw.1]; exact List.mem_cons_self _ _)
          · rw [if_neg hx] at hc
            rcases List.mem_cons.mp hc with rfl | hc2
            · exact Or.inl (List.mem_cons_self _ _)
            · rcases ih none c hc2 with h | h | ⟨w, b, hw, rfl⟩
              · exact Or.inl (List.mem_cons_of_mem x h)
              · exact Or.inr (Or.inl h)
              · exact absurd hw (by simp)
      | some (w, b) =>
          rw [collapseWSGo] at hc
          by_cases hx : isWS x
          · rw [if_pos hx] at hc
            rcases ih (some (w, true)) c hc with h | h | ⟨w2, b2, hw, rfl⟩
            · exact Or.inl (List.mem_cons_of_mem x h)
            · exact Or.inr (Or.inl h)
            · rw [Option.some.injEq, Prod.mk.injEq] at hw
              exact Or.inr (Or.inr ⟨w, b, rfl, hw.1.symm⟩)
          · rw [if_neg hx] at hc
            rcases List.mem_cons.mp hc with rfl | hc2
            · by_cases hb : b = true
              · subst hb
                exact Or.inr (Or.inl (by simp))
              · have hb2 : b = false := by simpa using hb
                subst hb2
                exact Or.inr (Or.inr ⟨w, false, rfl, by simp⟩)
            · rcases List.mem_cons.mp hc2 with rfl | hc3
              · exact Or.inl (List.mem_cons_self _ _)
              · rcases ih none c hc3 with h | h | ⟨w2, b2, hw, rfl⟩
                · exact Or.inl (List.mem_cons_of_mem x h)
                · exact Or.inr (Or.inl h)
                · exact absurd hw (by simp)

theorem aux_mem_collapseWS (l : Str) (c : Char) (h : c ∈ collapseWS l) :
    c ∈ l ∨ c = spaceChar := by
  rcases aux_mem_collapseWSGo l none c h with h2 | h2 | ⟨w, b, hw, -⟩
  · exact Or.inl h2
  · exact Or.inr h2
  · exact absurd hw (by simp)

theorem aux_replaceSpaced_fixed (l : Str) (h : ∀ c ∈ l, isSpacedPunct c = false) :
    replaceSpacedPunct l = l := by
  rw [replaceSpacedPunct]
  induction l with
  | nil => rfl
  | cons c rest ih =>
      rw [List.map_cons, if_neg (by simp [h c (List.mem_cons_self c rest)]),
        ih (fun d hd => h d (List.mem_cons_of_mem c hd))]

theorem aux_removePunct_fixed (l : Str) (h : ∀ c ∈ l, isRemovedPunct c = false) :
    removePunct l = l := by
  rw [removePunct, List.filter_eq_self]
  intro c hc
  simp [h c hc]

theorem aux_mem_replaceSpaced (l : Str) (c : Char) (h : c ∈ replaceSpacedPunct l) :
    (c ∈ l ∨ c = spaceChar) ∧ isSpacedPunct c = false := by
  rw [replaceSpacedPunct] at h
  rcases List.mem_map.mp h with ⟨d, hd, heq⟩
  by_cases hsp : isSpacedPunct d
  · rw [if_pos hsp] at heq
    subst heq
    exact ⟨Or.inr rfl, by decide⟩
  · rw [if_neg hsp] at heq
    subst heq
    exact ⟨Or.inl hd, by simpa using hsp⟩

theorem aux_mem_removePunct (l : Str) (c : Char) (h : c ∈ removePunct l) :
    c ∈ l ∧ isRemovedPunct c = false := by
  rw [removePunct] at h
  have := List.mem_filter.mp h
  exact ⟨this.1, by simpa using this.2⟩

theorem aux_collapse_fix_output (t2 : Str) : collapseWS (collapseWS t2) = collapseWS t2 :=
  (aux_collapseWSGo_fixed (collapseWS t2)).1 (aux_collapseWSGo_noDouble t2).1

theorem aux_y_toLower (z : Str) (hz : ∀ c ∈ z, c.toLower = c) :
    (collapseWS z).map Char.toLower = collapseWS z := by
  apply aux_map_toLower_fixed
  intro c hc
  rcases aux_mem_collapseWS z c hc with h | rfl
  · exact hz c h
  · decide

theorem aux_strip_chars (w : Str) : ∀ c ∈ removePunct (replaceSpacedPunct w),
    isSpacedPunct c = false ∧ isRemovedPunct c = false := by
  intro c hc
  obtain ⟨hc2, hrem⟩ := aux_mem_removePunct _ c hc
  exact ⟨(aux_mem_replaceSpaced _ c hc2).2, hrem⟩

theorem aux_y_nopunct (z : Str)
    (hz : ∀ c ∈ z, isSpacedPunct c = false ∧ isRemovedPunct c = false) :
    removePunct (replaceSpacedPunct (collapseWS z)) = collapseWS z := by
  have hall : ∀ c ∈ collapseWS z, isSpacedPunct c = false ∧ isRemovedPunct c = false := by
    intro c hc
    rcases aux_mem_collapseWS z c hc with h | rfl
    · exact hz c h
    · exact ⟨by decide, by decide⟩
  rw [aux_replaceSpaced_fixed _ (fun c hc => (hall c hc).1),
    aux_removePunct_fixed _ (fun c hc => (hall c hc).2)]

theorem aux_strip_toLower (t : Str) :
    ∀ c ∈ removePunct (replaceSpacedPunct (t.map Char.toLower)), c.toLower = c := by
  intro c hc
  obtain ⟨hc2, -⟩ := aux_mem_removePunct _ c hc
  rcases (aux_mem_replaceSpaced _ c hc2).1 with h | rfl
  · exact aux_mem_map_toLower t c h
  · decide

/-- Claim C8: with whitespace collapsing enabled, normalization is
idempotent — applying `getConfiguredText` (any case/punctuation flag
settings, `shouldCollapseWhitespace := true`) to its own output returns
it unchanged; in particular the collapsing stage itself is the identity
on any string with no run of two or more whitespace characters. -/
theorem spec_c8 :
    (∀ (isCaseSensitive shouldMatchPunctuation : Bool) (text : Str),
      getConfiguredText (getConfiguredText text isCaseSensitive shouldMatchPunctuation true)
          isCaseSensitive shouldMatchPunctuation true =
        getConfiguredText text isCaseSensitive shouldMatchPunctuation true) ∧
    (∀ text : Str, noDoubleWS text = true → collapseWS text = text) := by
  have hexpand : ∀ (cs mp : Bool) (t : Str), getConfiguredText t cs mp true =
      collapseWS (if !mp then removePunct (replaceSpacedPunct
          (if !cs then t.map Char.toLower else t))
        else (if !cs then t.map Char.toLower else t)) := by
    intro cs mp t
    simp [getConfiguredText]
  refine ⟨?_, fun text h => (aux_collapseWSGo_fixed text).1 h⟩
  intro cs mp text
  rw [hexpand, hexpand]
  cases cs <;> cases mp
  · show collapseWS (removePunct (replaceSpacedPunct
        ((collapseWS (removePunct (replaceSpacedPunct
          (text.map Char.toLower)))).map Char.toLower))) =
      collapseWS (removePunct (replaceSpacedPunct (text.map Char.toLower)))
    rw [aux_y_toLower _ (aux_strip_toLower text), aux_y_nopunct _ (aux_strip_chars _)]
    exact aux_collapse_fix_output _
  · show collapseWS ((collapseWS (text.map Char.toLower)).map Char.toLower) =
      collapseWS (text.map Char.toLower)
    rw [aux_y_toLower _ (fun c hc => aux_mem_map_toLower text c hc)]
    exact aux_collapse_fix_output _
  · show collapseWS (removePunct (replaceSpacedPunct
        (collapseWS (removePunct (replaceSpacedPunct text))))) =
      collapseWS (removePunct (replaceSpacedPunct text))
    rw [aux_y_nopunct _ (aux_strip_chars text)]
    exact aux_collapse_fix_output _
  · show collapseWS (collapseWS text) = collapseWS text
    exact aux_collapse_fix_output _

/-- Witness for C8 at concrete inputs: a text with an uppercase letter and
a double space, and the collapse-stage identity on an already-collapsed
string. -/
theorem spec_c8_witness :
    getConfiguredText (getConfiguredText ['A', ' ', ' ', 'b'] false true true)
        false true true = getConfiguredText ['A', ' ', ' ', 'b'] false true true ∧
    collapseWS ['a', ' ', 'b'] = ['a', ' ', 'b'] :=
  ⟨spec_c8.1 false true ['A', ' ', ' ', 'b'], spec_c8.2 ['a', ' ', 'b'] (by decide)⟩
